import Mathlib

/-!
# Verification of the ed9 terminal text editor (`ed9t.c`)

A shallow embedding of the editing engine of the ed9 editor: the
row-oriented text buffer, the tab-aware render cache, the cursor/viewport
model, file round-tripping, save error handling, the incremental-search
callback and the quit-confirmation counter.  Rows are modelled as
`List Char`; machine `int` fields that are only ever non-negative along the
verified paths are modelled as `Nat`, while values that the C code genuinely
drives to `-1` (the row index `at` passed to `editor_insert_row`, and the
search state `last_match` / `direction`) are modelled as `Int`.
-/

namespace Ed9

/-! ## Constants (from the `#define`s in `ed9t.c`) -/

def ED9T_TAB_STOP : Nat := 8

def ED9T_QUIT_TIMES : Nat := 3

/-- Macro `CTRL_KEY(k) = k & 0x1f`. -/
def CTRL_KEY (k : Nat) : Nat := k &&& 0x1f

/-- Values of the `EditorKey` enum (`ARROW_LEFT = 1000`, then in order). -/
def ARROW_LEFT : Nat := 1000

def ARROW_RIGHT : Nat := 1001

def ARROW_UP : Nat := 1002

def ARROW_DOWN : Nat := 1003

/-! ## Row operations: cx/rx translation (`editor_row_cx_to_rx`,
`editor_row_rx_to_cx`) and the render cache (`editor_update_row`). -/

/-- One step of the cursor-to-render-column walk: a tab does
`rx += (ED9T_TAB_STOP - 1) - (rx % ED9T_TAB_STOP)` and then every
character does `rx++`. -/
def nextRx (rx : Nat) (c : Char) : Nat :=
  if c = '\t' then rx + (ED9T_TAB_STOP - 1) - rx % ED9T_TAB_STOP + 1 else rx + 1

/-- Function `editor_row_cx_to_rx(row, cx)`: fold the walk over the first `cx`
characters of the row, starting from render column 0. -/
def editor_row_cx_to_rx (chars : List Char) (cx : Nat) : Nat :=
  (chars.take cx).foldl nextRx 0

/-- The loop body of `editor_row_rx_to_cx`: walk the row accumulating
`cur_rx`, returning the first index at which `cur_rx > rx` (the row length
if the loop runs off the end). -/
def rxToCxAux (l : List Char) (rx cur : Nat) : Nat :=
  match l with
  | [] => 0
  | c :: cs =>
    let cur2 := nextRx cur c
    if rx < cur2 then 0 else 1 + rxToCxAux cs rx cur2

/-- Function `editor_row_rx_to_cx(row, rx)`. -/
def editor_row_rx_to_cx (chars : List Char) (rx : Nat) : Nat :=
  rxToCxAux chars rx 0

/-- The emit loop of `editor_update_row`: a tab emits one space and then
further spaces until `idx % ED9T_TAB_STOP == 0`, i.e.
`ED9T_TAB_STOP - idx % ED9T_TAB_STOP` spaces in total; any other byte is
copied through. -/
def renderAux : List Char → Nat → List Char
  | [], _ => []
  | c :: cs, idx =>
    if c = '\t' then
      let k := ED9T_TAB_STOP - idx % ED9T_TAB_STOP
      List.replicate k ' ' ++ renderAux cs (idx + k)
    else c :: renderAux cs (idx + 1)

/-- Function `editor_update_row(row)`: recompute the render cache of a row from its
characters. -/
def editor_update_row (chars : List Char) : List Char :=
  renderAux chars 0

/-! ## Helper lemmas about the tab-stop arithmetic -/

lemma nextRx_gt (rx : Nat) (c : Char) : rx < nextRx rx c := by
  unfold nextRx
  split
  · have h : rx % ED9T_TAB_STOP ≤ ED9T_TAB_STOP - 1 := by
      have := Nat.mod_lt rx (show 0 < ED9T_TAB_STOP by decide)
      omega
    omega
  · omega

lemma foldl_nextRx_le (l : List Char) : ∀ cur : Nat, cur ≤ l.foldl nextRx cur := by
  induction l with
  | nil => intro cur; simp
  | cons c cs ih =>
    intro cur
    have h1 : cur < nextRx cur c := nextRx_gt cur c
    have h2 := ih (nextRx cur c)
    simp only [List.foldl_cons]
    omega

/-- Core of the left-inverse property: walking back a folded render column
recovers the number of characters folded, for any starting column. -/
lemma rxToCxAux_foldl (l : List Char) :
    ∀ cx : Nat, cx ≤ l.length → ∀ cur : Nat,
      rxToCxAux l ((l.take cx).foldl nextRx cur) cur = cx := by
  induction l with
  | nil =>
    intro cx hcx cur
    simp at hcx
    subst hcx
    simp [rxToCxAux]
  | cons c cs ih =>
    intro cx hcx cur
    cases cx with
    | zero =>
      simp only [List.take_zero, List.foldl_nil, rxToCxAux]
      have := nextRx_gt cur c
      simp [this]
    | succ k =>
      simp only [List.take_succ_cons, List.foldl_cons, rxToCxAux]
      have hk : k ≤ cs.length := by simpa using hcx
      have hge : nextRx cur c ≤ (cs.take k).foldl nextRx (nextRx cur c) :=
        foldl_nextRx_le _ _
      have hnotlt : ¬ ((cs.take k).foldl nextRx (nextRx cur c) < nextRx cur c) := by
        omega
      simp only [hnotlt, if_false]
      rw [ih k hk (nextRx cur c)]
      omega

/-- C4. For every row and every cursor column `cx` within the row,
`editor_row_rx_to_cx` is a left inverse of `editor_row_cx_to_rx`:
`editor_row_rx_to_cx(row, editor_row_cx_to_rx(row, cx)) = cx`. -/
theorem rx_to_cx_left_inverse (chars : List Char) (cx : Nat)
    (h : cx ≤ chars.length) :
    editor_row_rx_to_cx chars (editor_row_cx_to_rx chars cx) = cx := by
  unfold editor_row_rx_to_cx editor_row_cx_to_rx
  exact rxToCxAux_foldl chars cx h 0

/-- Witness for C4 at the concrete row `"a\tb"` and `cx = 2`. -/
theorem rx_to_cx_left_inverse_witness :
    editor_row_rx_to_cx ['a', '\t', 'b'] (editor_row_cx_to_rx ['a', '\t', 'b'] 2) = 2 :=
  rx_to_cx_left_inverse ['a', '\t', 'b'] 2 (by decide)

/-! ## C6: render cache properties -/

lemma renderAux_length_ge (l : List Char) :
    ∀ idx : Nat, l.length ≤ (renderAux l idx).length := by
  induction l with
  | nil => intro idx; simp [renderAux]
  | cons c cs ih =>
    intro idx
    by_cases hc : c = '\t'
    · simp only [renderAux, hc, if_true, List.length_append, List.length_replicate,
        List.length_cons]
      have hmod : idx % ED9T_TAB_STOP < ED9T_TAB_STOP :=
        Nat.mod_lt idx (by decide)
      have := ih (idx + (ED9T_TAB_STOP - idx % ED9T_TAB_STOP))
      omega
    · simp only [renderAux, hc, if_false, List.length_cons]
      have := ih (idx + 1)
      omega

lemma renderAux_no_tab (l : List Char) (h : '\t' ∉ l) :
    ∀ idx : Nat, renderAux l idx = l := by
  induction l with
  | nil => intro idx; simp [renderAux]
  | cons c cs ih =>
    intro idx
    have hc : c ≠ '\t' := by
      intro hceq
      exact h (hceq ▸ List.mem_cons_self c cs)
    have hcs : '\t' ∉ cs := fun hm => h (List.mem_cons_of_mem c hm)
    simp only [renderAux, if_neg hc]
    rw [ih hcs (idx + 1)]

/-- Counterexample to C6 as stated: the row `"1234567\t"` contains a tab,
yet its render has exactly the same length as its characters (the tab sits
at render column 7 and expands to a single space), so "render length equals
character length iff the row has no tabs" is false. -/
theorem render_length_eq_with_tab :
    (editor_update_row ['1', '2', '3', '4', '5', '6', '7', '\t']).length =
      (['1', '2', '3', '4', '5', '6', '7', '\t'] : List Char).length ∧
    '\t' ∈ (['1', '2', '3', '4', '5', '6', '7', '\t'] : List Char) := by
  decide

/-- C6 (amended). With tab width 8, the row `"\tA"` renders as 8 spaces
followed by `A`; for every row the render length is at least the character
length; and a row without tabs renders to itself, so its render length
equals its character length (the converse fails, see the counterexample). -/
theorem update_row_tab_properties :
    editor_update_row ['\t', 'A'] = List.replicate 8 ' ' ++ ['A'] ∧
    (∀ chars : List Char, chars.length ≤ (editor_update_row chars).length) ∧
    (∀ chars : List Char, '\t' ∉ chars →
      (editor_update_row chars).length = chars.length) := by
  refine ⟨by decide, ?_, ?_⟩
  · intro chars
    exact renderAux_length_ge chars 0
  · intro chars h
    unfold editor_update_row
    rw [renderAux_no_tab chars h 0]

/-- Witness for C6 (amended) at the tab-free row `"ab"`. -/
theorem update_row_tab_properties_witness :
    (editor_update_row ['a', 'b']).length = (['a', 'b'] : List Char).length :=
  update_row_tab_properties.2.2 ['a', 'b'] (by decide)

/-! ## Editor state (`EditorRow`, `EditorConfig`) -/

/-- Structure `EditorRow`: a row's characters together with its render cache
(`size` and `rsize` are the list lengths). -/
structure EditorRow where
  chars : List Char
  render : List Char
  deriving Repr, DecidableEq

/-- A freshly inserted row: `editor_insert_row` copies the text and
immediately calls `editor_update_row` on it. -/
def mkRow (chars : List Char) : EditorRow :=
  ⟨chars, editor_update_row chars⟩

/-- The `NULL` row used where the C code would not dereference one. -/
def emptyRow : EditorRow := ⟨[], []⟩

/-- Structure `EditorConfig`: the global editor state `E` (terminal plumbing and the
status-message buffer are omitted; `numrows` is `rows.length`). -/
structure EditorConfig where
  cx : Nat
  cy : Nat
  rx : Nat
  rowoff : Nat
  coloff : Nat
  screenrows : Nat
  screencols : Nat
  rows : List EditorRow
  dirty : Nat
  filename : Option (List Char)
  deriving Repr, DecidableEq

/-- Insertion of an element at a list position (the `memmove` shifting
rows `at..` down by one); callers guard `n ≤ length`. -/
def listInsertAt : Nat → α → List α → List α
  | 0, a, l => a :: l
  | _ + 1, a, [] => [a]
  | n + 1, a, x :: xs => x :: listInsertAt n a xs

/-- Function `editor_insert_row(at, s, len)`: a negative or past-end `at` returns
without inserting; otherwise the new row (with its render cache computed
by `editor_update_row`) is placed at index `at`, later rows shift down and
`dirty` is incremented. -/
def editor_insert_row (at_ : Int) (s : List Char) (st : EditorConfig) : EditorConfig :=
  if at_ < 0 ∨ at_ > (st.rows.length : Int) then st
  else
    { st with
      rows := listInsertAt at_.toNat (mkRow s) st.rows
      dirty := st.dirty + 1 }

/-- Function `editor_insert_newline()`: at `cx = 0` insert an empty row at `cy`;
otherwise insert the tail `chars[cx..]` as a new row at `cy + 1` and
truncate the current row to its first `cx` characters (re-rendering it);
in both cases `cy` is incremented and `cx` reset to 0. -/
def editor_insert_newline (st : EditorConfig) : EditorConfig :=
  let st' :=
    if st.cx = 0 then
      editor_insert_row (st.cy : Int) [] st
    else
      let row := st.rows.getD st.cy emptyRow
      let st1 := editor_insert_row ((st.cy : Int) + 1) (row.chars.drop st.cx) st
      { st1 with rows := st1.rows.set st.cy (mkRow (row.chars.take st.cx)) }
  { st' with cy := st'.cy + 1, cx := 0 }

/-! ## C5: `editor_insert_row` out-of-range behaviour -/

/-- A small concrete state used by counterexamples and witnesses. -/
def stAB : EditorConfig :=
  { cx := 0, cy := 0, rx := 0, rowoff := 0, coloff := 0,
    screenrows := 10, screencols := 40,
    rows := [mkRow ['a'], mkRow ['b']], dirty := 0, filename := none }

/-- Counterexample to C5 as stated: calling `editor_insert_row` with the
out-of-range position `-1` on a two-row buffer inserts nothing at all (the
function returns early), rather than inserting at the clamped position 0:
the row count stays 2 and the state is completely unchanged. -/
theorem insert_row_out_of_range_no_insert :
    (editor_insert_row (-1) ['z'] stAB).rows.length ≠ stAB.rows.length + 1 ∧
    editor_insert_row (-1) ['z'] stAB = stAB ∧
    editor_insert_row 3 ['z'] stAB = stAB := by
  decide

lemma listInsertAt_eq_take_drop (a : α) :
    ∀ (n : Nat) (l : List α), n ≤ l.length →
      listInsertAt n a l = l.take n ++ a :: l.drop n := by
  intro n
  induction n with
  | zero => intro l _; simp [listInsertAt]
  | succ k ih =>
    intro l hl
    cases l with
    | nil => simp at hl
    | cons x xs =>
      simp only [listInsertAt, List.take_succ_cons, List.drop_succ_cons,
        List.cons_append]
      rw [ih xs (by simpa using hl)]

/-- Shared in-range behaviour of `editor_insert_row`: for
`0 ≤ at ≤ row_count` the new row lands at index `at` and `dirty` grows. -/
lemma insert_row_in_range (at_ : Int) (s : List Char) (st : EditorConfig)
    (h0 : 0 ≤ at_) (hle : at_ ≤ (st.rows.length : Int)) :
    (editor_insert_row at_ s st).rows =
      st.rows.take at_.toNat ++ mkRow s :: st.rows.drop at_.toNat ∧
    (editor_insert_row at_ s st).dirty = st.dirty + 1 := by
  have hguard : ¬ (at_ < 0 ∨ at_ > (st.rows.length : Int)) := by omega
  have hnat : at_.toNat ≤ st.rows.length := by omega
  unfold editor_insert_row
  rw [if_neg hguard]
  exact ⟨listInsertAt_eq_take_drop _ _ _ hnat, rfl⟩

/-- C5 (amended). For `0 ≤ at ≤ row_count`, `editor_insert_row` inserts
the new row (with freshly computed render cache) at position `at`,
shifting later rows down and incrementing `dirty`; an out-of-range `at`
(negative or greater than `row_count`) is a no-op, leaving the state —
including `dirty` — unchanged. -/
theorem insert_row_spec (at_ : Int) (s : List Char) (st : EditorConfig) :
    (0 ≤ at_ → at_ ≤ (st.rows.length : Int) →
      (editor_insert_row at_ s st).rows =
        st.rows.take at_.toNat ++ mkRow s :: st.rows.drop at_.toNat ∧
      (editor_insert_row at_ s st).dirty = st.dirty + 1 ∧
      (editor_insert_row at_ s st).rows.length = st.rows.length + 1) ∧
    (at_ < 0 ∨ at_ > (st.rows.length : Int) →
      editor_insert_row at_ s st = st) := by
  constructor
  · intro h0 hle
    have hnat : at_.toNat ≤ st.rows.length := by omega
    obtain ⟨h1, h2⟩ := insert_row_in_range at_ s st h0 hle
    refine ⟨h1, h2, ?_⟩
    rw [h1]
    simp only [List.length_append, List.length_cons, List.length_take,
      List.length_drop]
    omega
  · intro h
    unfold editor_insert_row
    rw [if_pos h]

/-- Witness for C5 (amended): inserting at position 1 of the two-row state. -/
theorem insert_row_spec_witness :
    (editor_insert_row 1 ['z'] stAB).rows =
      stAB.rows.take 1 ++ mkRow ['z'] :: stAB.rows.drop 1 ∧
    (editor_insert_row 1 ['z'] stAB).dirty = stAB.dirty + 1 := by
  have h := (insert_row_spec 1 ['z'] stAB).1 (by decide) (by decide)
  exact ⟨h.1, h.2.1⟩

/-! ## C3: `editor_insert_newline` -/

lemma insert_row_cy (at_ : Int) (s : List Char) (st : EditorConfig) :
    (editor_insert_row at_ s st).cy = st.cy := by
  unfold editor_insert_row
  split <;> rfl

lemma set_append_cons (l1 : List α) (x v : α) (l2 : List α) (n : Nat)
    (h : n = l1.length) : (l1 ++ x :: l2).set n v = l1 ++ v :: l2 := by
  subst h
  induction l1 with
  | nil => simp
  | cons a as ih => simp [List.set, ih]

/-- The concrete scenario state: buffer `["hello", "world"]`, cursor at
`(cy = 0, cx = 5)`. -/
def stHello : EditorConfig :=
  { cx := 5, cy := 0, rx := 0, rowoff := 0, coloff := 0,
    screenrows := 10, screencols := 40,
    rows := [mkRow ['h', 'e', 'l', 'l', 'o'], mkRow ['w', 'o', 'r', 'l', 'd']],
    dirty := 0, filename := none }

/-- C3. `editor_insert_newline`: the cursor always ends at
`(cy + 1, 0)`; at `cx = 0` an empty row is inserted above the cursor's
row; at `cx ≠ 0` the current row is split at `cx` (prefix stays, suffix
becomes a new row below); and on the concrete scenario — buffer
`["hello", "world"]`, cursor `(0, 5)` — Enter yields rows
`["hello", "", "world"]` with the cursor at `(1, 0)`. -/
theorem insert_newline_spec (st : EditorConfig) :
    ((editor_insert_newline st).cy = st.cy + 1 ∧
      (editor_insert_newline st).cx = 0) ∧
    (st.cx = 0 → st.cy ≤ st.rows.length →
      (editor_insert_newline st).rows =
        st.rows.take st.cy ++ mkRow [] :: st.rows.drop st.cy) ∧
    (∀ row, st.cx ≠ 0 → st.rows[st.cy]? = some row →
      (editor_insert_newline st).rows =
        st.rows.take st.cy ++ mkRow (row.chars.take st.cx) ::
          mkRow (row.chars.drop st.cx) :: st.rows.drop (st.cy + 1)) ∧
    ((editor_insert_newline stHello).rows =
        [mkRow ['h', 'e', 'l', 'l', 'o'], mkRow [],
          mkRow ['w', 'o', 'r', 'l', 'd']] ∧
      (editor_insert_newline stHello).cy = 1 ∧
      (editor_insert_newline stHello).cx = 0) := by
  refine ⟨?_, ?_, ?_, by decide⟩
  · unfold editor_insert_newline
    split
    · simp [insert_row_cy]
    · simp [insert_row_cy]
  · intro hcx hcy
    unfold editor_insert_newline
    rw [if_pos hcx]
    show (editor_insert_row (st.cy : Int) [] st).rows = _
    have h := insert_row_in_range (st.cy : Int) [] st (by omega) (by
      exact_mod_cast hcy)
    simpa using h.1
  · intro row hcx hget
    have hcy : st.cy < st.rows.length := by
      rcases List.getElem?_eq_some_iff.mp hget with ⟨h, _⟩
      exact h
    have hgetD : st.rows.getD st.cy emptyRow = row := by
      simp [List.getD_eq_getElem?_getD, hget]
    unfold editor_insert_newline
    rw [if_neg hcx]
    show ((editor_insert_row ((st.cy : Int) + 1)
        ((st.rows.getD st.cy emptyRow).chars.drop st.cx) st).rows.set st.cy
        (mkRow ((st.rows.getD st.cy emptyRow).chars.take st.cx))) = _
    rw [hgetD]
    have h1 := insert_row_in_range ((st.cy : Int) + 1) (row.chars.drop st.cx) st
      (by omega) (by omega)
    have ht : ((st.cy : Int) + 1).toNat = st.cy + 1 := by omega
    rw [h1.1, ht]
    rw [List.take_succ]
    have hgetElem : st.rows[st.cy]?.toList = [row] := by rw [hget]; rfl
    rw [hgetElem]
    rw [List.append_assoc]
    simp only [List.singleton_append]
    exact set_append_cons _ row _ _ st.cy (by rw [List.length_take]; omega)

/-- Witness for C3 at the concrete scenario state (split branch). -/
theorem insert_newline_spec_witness :
    (editor_insert_newline stHello).rows =
      stHello.rows.take stHello.cy ++
        mkRow ((mkRow ['h', 'e', 'l', 'l', 'o']).chars.take stHello.cx) ::
        mkRow ((mkRow ['h', 'e', 'l', 'l', 'o']).chars.drop stHello.cx) ::
        stHello.rows.drop (stHello.cy + 1) :=
  (insert_newline_spec stHello).2.2.1 (mkRow ['h', 'e', 'l', 'l', 'o'])
    (by decide) (by decide)

/-! ## C9: `editor_scroll` -/

/-- The `rx` recomputation at the top of `editor_scroll`. -/
def scrollRx (st : EditorConfig) : Nat :=
  if st.cy < st.rows.length then
    editor_row_cx_to_rx (st.rows.getD st.cy emptyRow).chars st.cx
  else 0

/-- The two sequential `rowoff` adjustments of `editor_scroll` (the first
`if` pulls `rowoff` up to `cy`, the second pushes it down so `cy` is the
last visible row). -/
def scrollRowoff (st : EditorConfig) : Nat :=
  if st.cy ≥ (if st.cy < st.rowoff then st.cy else st.rowoff) + st.screenrows
  then st.cy - st.screenrows + 1
  else if st.cy < st.rowoff then st.cy else st.rowoff

/-- The two sequential `coloff` adjustments of `editor_scroll`. -/
def scrollColoff (coloff screencols rx : Nat) : Nat :=
  if rx ≥ (if rx < coloff then rx else coloff) + screencols
  then rx - screencols + 1
  else if rx < coloff then rx else coloff

/-- Function `editor_scroll()`: recompute `rx` from `cx` then clamp the offsets. -/
def editor_scroll (st : EditorConfig) : EditorConfig :=
  { st with
    rx := scrollRx st
    rowoff := scrollRowoff st
    coloff := scrollColoff st.coloff st.screencols (scrollRx st) }

/-- A state whose cursor is outside the viewport on both axes. -/
def stScrolled : EditorConfig :=
  { cx := 3, cy := 25, rx := 0, rowoff := 0, coloff := 9,
    screenrows := 5, screencols := 4,
    rows := List.replicate 30 (mkRow ['a', 'b', 'c', 'd']),
    dirty := 0, filename := none }

/-- C9. After `editor_scroll`, the cursor lies inside the viewport:
`rowoff ≤ cy < rowoff + screenrows` and `coloff ≤ rx < coloff + screencols`
(whenever the screen has at least one row and one column). -/
theorem scroll_cursor_in_viewport (st : EditorConfig)
    (hr : 0 < st.screenrows) (hc : 0 < st.screencols) :
    (editor_scroll st).rowoff ≤ (editor_scroll st).cy ∧
    (editor_scroll st).cy <
      (editor_scroll st).rowoff + (editor_scroll st).screenrows ∧
    (editor_scroll st).coloff ≤ (editor_scroll st).rx ∧
    (editor_scroll st).rx <
      (editor_scroll st).coloff + (editor_scroll st).screencols := by
  have hrow : scrollRowoff st ≤ st.cy ∧
      st.cy < scrollRowoff st + st.screenrows := by
    unfold scrollRowoff
    split_ifs <;> omega
  have hcol : scrollColoff st.coloff st.screencols (scrollRx st) ≤ scrollRx st ∧
      scrollRx st <
        scrollColoff st.coloff st.screencols (scrollRx st) + st.screencols := by
    unfold scrollColoff
    split_ifs <;> omega
  exact ⟨hrow.1, hrow.2, hcol.1, hcol.2⟩

/-- Witness for C9 at a concrete state with the cursor far below and to
the right of the viewport. -/
theorem scroll_cursor_in_viewport_witness :
    0 < stScrolled.screenrows ∧ 0 < stScrolled.screencols ∧
    (editor_scroll stScrolled).rowoff ≤ (editor_scroll stScrolled).cy ∧
    (editor_scroll stScrolled).cy <
      (editor_scroll stScrolled).rowoff + (editor_scroll stScrolled).screenrows :=
  ⟨by decide, by decide,
    (scroll_cursor_in_viewport stScrolled (by decide) (by decide)).1,
    (scroll_cursor_in_viewport stScrolled (by decide) (by decide)).2.1⟩

/-! ## C10: `editor_move_cursor` -/

/-- The length of the row the cursor is on (0 for the past-end row). -/
def rowLen (st : EditorConfig) : Nat :=
  if st.cy < st.rows.length then (st.rows.getD st.cy emptyRow).chars.length
  else 0

/-- The `switch (key)` of `editor_move_cursor` (a `NULL` row pointer
corresponds to `cy ≥ numrows`). -/
def moveCursorArrow (key : Nat) (st : EditorConfig) : EditorConfig :=
  if key = ARROW_UP then
    if st.cy ≠ 0 then { st with cy := st.cy - 1 } else st
  else if key = ARROW_DOWN then
    if st.cy < st.rows.length then { st with cy := st.cy + 1 } else st
  else if key = ARROW_LEFT then
    if st.cx ≠ 0 then { st with cx := st.cx - 1 }
    else if st.cy > 0 then
      { st with cy := st.cy - 1, cx := (st.rows.getD (st.cy - 1) emptyRow).chars.length }
    else st
  else if key = ARROW_RIGHT then
    if st.cy < st.rows.length then
      if st.cx < (st.rows.getD st.cy emptyRow).chars.length then
        { st with cx := st.cx + 1 }
      else if st.cx = (st.rows.getD st.cy emptyRow).chars.length then
        { st with cy := st.cy + 1, cx := 0 }
      else st
    else st
  else st

/-- The trailing snap of `editor_move_cursor`: clamp `cx` to the length of
the (possibly new) current row. -/
def snapCx (st : EditorConfig) : EditorConfig :=
  if st.cx > rowLen st then { st with cx := rowLen st } else st

/-- Function `editor_move_cursor(key)`. -/
def editor_move_cursor (key : Nat) (st : EditorConfig) : EditorConfig :=
  snapCx (moveCursorArrow key st)

lemma moveCursorArrow_rows (key : Nat) (st : EditorConfig) :
    (moveCursorArrow key st).rows = st.rows := by
  unfold moveCursorArrow
  split_ifs <;> rfl

lemma moveCursorArrow_cy_le (key : Nat) (st : EditorConfig)
    (h : st.cy ≤ st.rows.length) :
    (moveCursorArrow key st).cy ≤ (moveCursorArrow key st).rows.length := by
  rw [moveCursorArrow_rows]
  unfold moveCursorArrow
  split_ifs <;> first | omega | (dsimp only; omega)

lemma snapCx_rows (st : EditorConfig) : (snapCx st).rows = st.rows := by
  unfold snapCx
  split <;> rfl

lemma snapCx_cy (st : EditorConfig) : (snapCx st).cy = st.cy := by
  unfold snapCx
  split <;> rfl

lemma rowLen_cx_irrelevant (st : EditorConfig) (v : Nat) :
    rowLen { st with cx := v } = rowLen st := rfl

lemma snapCx_cx_le (st : EditorConfig) : (snapCx st).cx ≤ rowLen (snapCx st) := by
  unfold snapCx
  by_cases h : st.cx > rowLen st
  · rw [if_pos h]
    exact (rowLen_cx_irrelevant st (rowLen st)).symm.le
  · rw [if_neg h]
    show st.cx ≤ rowLen st
    omega

/-- C10. For any arrow key, if `cy ≤ numrows` before the move then
`cy ≤ numrows` still holds after it, and the cursor column never exceeds
the current row's character length (0 for the past-end row): moving onto
a shorter row snaps `cx` back to that row's end. -/
theorem move_cursor_invariant (key : Nat) (st : EditorConfig)
    (hcy : st.cy ≤ st.rows.length)
    (_hkey : key = ARROW_LEFT ∨ key = ARROW_RIGHT ∨
      key = ARROW_UP ∨ key = ARROW_DOWN) :
    (editor_move_cursor key st).cy ≤ (editor_move_cursor key st).rows.length ∧
    (editor_move_cursor key st).cx ≤ rowLen (editor_move_cursor key st) := by
  unfold editor_move_cursor
  constructor
  · rw [snapCx_rows, snapCx_cy]
    exact moveCursorArrow_cy_le key st hcy
  · exact snapCx_cx_le _

/-- A state with the cursor at the end of a long row above a short row. -/
def stMove : EditorConfig :=
  { cx := 4, cy := 0, rx := 0, rowoff := 0, coloff := 0,
    screenrows := 10, screencols := 40,
    rows := [mkRow ['a', 'b', 'c', 'd'], mkRow ['x']],
    dirty := 0, filename := none }

/-- Witness for C10: moving down from the long row `"abcd"` onto the short
row `"x"` snaps the cursor back to column 1. -/
theorem move_cursor_invariant_witness :
    stMove.cy ≤ stMove.rows.length ∧
    (editor_move_cursor ARROW_DOWN stMove).cx ≤
      rowLen (editor_move_cursor ARROW_DOWN stMove) ∧
    (editor_move_cursor ARROW_DOWN stMove).cx = 1 :=
  ⟨by decide,
    (move_cursor_invariant ARROW_DOWN stMove (by decide)
      (by right; right; right; rfl)).2,
    by decide⟩

/-! ## C1: the quit-confirmation counter in `editor_process_keypress` -/

/-- One step of the quit-confirmation behaviour of
`editor_process_keypress`: the `CTRL_KEY('q')` case either warns (showing
the current `quit_times`, decrementing it, and returning early — the only
early `return` in the `switch`) or exits; every other key falls through
the `switch` to the trailing `quit_times = ED9T_QUIT_TIMES` reset.
`warned` is the count shown in the status message, if any. -/
structure QuitStep where
  exited : Bool
  quit_times : Nat
  warned : Option Nat
  deriving Repr, DecidableEq

/-- The quit-relevant projection of `editor_process_keypress(c)` (the
buffer/cursor mutations performed by the other cases never touch
`quit_times` or exit). `'q'` is byte 113, so `CTRL_KEY 113 = 17`. -/
def editor_process_keypress_quit (c : Nat) (dirty : Nat) (qt : Nat) : QuitStep :=
  if c = CTRL_KEY 113 then
    if dirty ≠ 0 ∧ 0 < qt then ⟨false, qt - 1, some qt⟩
    else ⟨true, qt, none⟩
  else ⟨false, ED9T_QUIT_TIMES, none⟩

/-- Feed a sequence of keys through the quit logic (with a fixed dirty
flag), reporting whether the editor exited. -/
def runQuitKeys (dirty : Nat) : List Nat → Nat → Bool
  | [], _ => false
  | c :: cs, qt =>
    let r := editor_process_keypress_quit c dirty qt
    if r.exited then true else runQuitKeys dirty cs r.quit_times

/-- C1 (code behaviour at the claim's failing input). With a dirty buffer
and the counter at its initial value 3: the first three consecutive
Ctrl-Q presses all warn (showing 3, 2, 1) and do **not** exit — contrary
to the claim/spec, the third press does not quit — and only the fourth
consecutive press exits; any non-Ctrl-Q key resets the counter to 3; a
clean buffer exits on a single Ctrl-Q. -/
theorem quit_counter_behavior :
    runQuitKeys 1 [17, 17, 17] ED9T_QUIT_TIMES = false ∧
    runQuitKeys 1 [17, 17, 17, 17] ED9T_QUIT_TIMES = true ∧
    editor_process_keypress_quit 17 1 3 = ⟨false, 2, some 3⟩ ∧
    editor_process_keypress_quit 17 1 2 = ⟨false, 1, some 2⟩ ∧
    editor_process_keypress_quit 17 1 1 = ⟨false, 0, some 1⟩ ∧
    (editor_process_keypress_quit 17 1 0).exited = true ∧
    (editor_process_keypress_quit 120 1 1).quit_times = ED9T_QUIT_TIMES ∧
    (editor_process_keypress_quit 17 0 ED9T_QUIT_TIMES).exited = true := by
  decide

/-! ## C2: file round-trip (`editor_open` / `editor_rows_to_string`) -/

/-- The `getline` loop of `editor_open`: split the file content into
lines, each including its terminating `'\n'`; a final line without a
newline is returned as-is; nothing is returned after the last newline of
a newline-terminated file. -/
def getlineSplit : List Char → List (List Char)
  | [] => []
  | c :: cs =>
    if c = '\n' then ['\n'] :: getlineSplit cs
    else
      match getlineSplit cs with
      | [] => [[c]]
      | l :: ls => (c :: l) :: ls

/-- The `while (linelen > 0 && (line[linelen-1]=='\n' || '\r')) linelen--`
loop of `editor_open`: strip every trailing `'\n'` or `'\r'`. -/
def stripNlCr (l : List Char) : List Char :=
  (l.reverse.dropWhile (fun c => c = '\n' || c = '\r')).reverse

/-- Function `editor_open(filename)`, restricted to the buffer it builds: each
`getline` line, with trailing `'\n'`/`'\r'` stripped, becomes a row (in
order). -/
def editor_open_rows (content : List Char) : List (List Char) :=
  (getlineSplit content).map stripNlCr

/-- Function `editor_rows_to_string()`: every row is written followed by exactly
one `'\n'`. -/
def editor_rows_to_string (rows : List (List Char)) : List Char :=
  (rows.map (fun r => r ++ ['\n'])).flatten

lemma getlineSplit_append_newline (t : List Char) :
    ∀ r : List Char, '\n' ∉ r →
      getlineSplit (r ++ '\n' :: t) = (r ++ ['\n']) :: getlineSplit t := by
  intro r
  induction r with
  | nil =>
    intro _
    simp [getlineSplit]
  | cons c r' ih =>
    intro h
    have hc : c ≠ '\n' := fun hceq => h (hceq ▸ List.mem_cons_self c r')
    have hr' : '\n' ∉ r' := fun hm => h (List.mem_cons_of_mem c hm)
    simp only [List.cons_append, getlineSplit, if_neg hc]
    simp only [List.append_eq]
    rw [ih hr']

lemma stripNlCr_mem (l : List Char) (x : Char) (h : x ∈ stripNlCr l) : x ∈ l := by
  unfold stripNlCr at h
  rw [List.mem_reverse] at h
  have hsub := (List.dropWhile_sublist (l := l.reverse)
    (p := fun c => c = '\n' || c = '\r')).subset
  have := hsub h
  rwa [List.mem_reverse] at this

lemma stripNlCr_append_newline (r : List Char) (hn : '\n' ∉ r)
    (hr : r.getLast? ≠ some '\r') : stripNlCr (r ++ ['\n']) = r := by
  unfold stripNlCr
  rw [List.reverse_append]
  rw [show ((['\n'] : List Char).reverse ++ r.reverse) = '\n' :: r.reverse from rfl]
  rw [List.dropWhile_cons, if_pos (by decide)]
  cases hrev : r.reverse with
  | nil =>
    have : r = [] := by simpa using congrArg List.reverse hrev
    simp [this]
  | cons a t =>
    have ha_last : r.getLast? = some a := by
      rw [← List.head?_reverse, hrev]
      rfl
    have ha_mem : a ∈ r := by
      have : a ∈ r.reverse := by rw [hrev]; exact List.mem_cons_self a t
      rwa [List.mem_reverse] at this
    have han : a ≠ '\n' := fun hEq => hn (hEq ▸ ha_mem)
    have har : a ≠ '\r' := fun hEq => hr (by rw [ha_last, hEq])
    rw [List.dropWhile_cons, if_neg (by simp [han, har])]
    rw [← hrev, List.reverse_reverse]

lemma rows_to_string_cons (r : List Char) (rs : List (List Char)) :
    editor_rows_to_string (r :: rs) = r ++ '\n' :: editor_rows_to_string rs := by
  unfold editor_rows_to_string
  simp

/-- Every `getline` chunk contains `'\n'` nowhere, or only as its final
character. -/
lemma getlineSplit_chunk_shape (content : List Char) :
    ∀ ch ∈ getlineSplit content,
      '\n' ∉ ch ∨ ∃ pre, ch = pre ++ ['\n'] ∧ '\n' ∉ pre := by
  induction content with
  | nil => intro ch h; simp [getlineSplit] at h
  | cons c cs ih =>
    intro ch h
    by_cases hc : c = '\n'
    · subst hc
      rw [show getlineSplit ('\n' :: cs) = ['\n'] :: getlineSplit cs from rfl] at h
      rcases List.mem_cons.mp h with h1 | h1
      · exact Or.inr ⟨[], by simp [h1], by simp⟩
      · exact ih ch h1
    · simp only [getlineSplit, if_neg hc] at h
      cases hsplit : getlineSplit cs with
      | nil =>
        rw [hsplit] at h
        simp at h
        subst h
        exact Or.inl (by simp [Ne.symm hc])
      | cons l ls =>
        rw [hsplit] at h
        simp only [List.mem_cons] at h
        rcases h with h | h
        · subst h
          rcases ih l (by rw [hsplit]; exact List.mem_cons_self l ls) with hl | ⟨pre, hpre, hnpre⟩
          · exact Or.inl (by simp [Ne.symm hc, hl])
          · refine Or.inr ⟨c :: pre, by simp [hpre], ?_⟩
            simp [Ne.symm hc, hnpre]
        · exact ih ch (by rw [hsplit]; exact List.mem_cons_of_mem l h)

lemma head_dropWhile_false (p : Char → Bool) :
    ∀ l : List Char, ∀ c : Char, (l.dropWhile p).head? = some c → p c = false := by
  intro l
  induction l with
  | nil => intro c h; simp at h
  | cons a t ih =>
    intro c h
    rw [List.dropWhile_cons] at h
    by_cases hp : p a
    · rw [if_pos hp] at h
      exact ih c h
    · rw [if_neg hp] at h
      simp only [List.head?_cons, Option.some.injEq] at h
      subst h
      simpa using hp

lemma stripNlCr_getLast (l : List Char) :
    (stripNlCr l).getLast? ≠ some '\r' ∧ (stripNlCr l).getLast? ≠ some '\n' := by
  unfold stripNlCr
  rw [List.getLast?_reverse]
  constructor
  · intro h
    have := head_dropWhile_false _ _ _ h
    simp at this
  · intro h
    have := head_dropWhile_false _ _ _ h
    simp at this

lemma stripNlCr_strip_newline (pre : List Char) :
    stripNlCr (pre ++ ['\n']) = stripNlCr pre := by
  unfold stripNlCr
  rw [List.reverse_append]
  simp [List.dropWhile_cons]

/-- C2. Round-trip between `editor_open` and `editor_rows_to_string`:
(i) every loaded row contains no `'\n'` and ends in neither `'\r'` nor
`'\n'`; (ii) on any list of such rows (no interior `'\n'`, no trailing
`'\r'`), saving — which emits each row followed by exactly one `'\n'` —
and re-loading reproduces the rows exactly; (iii) consequently the saved
byte string of a loaded buffer is a fixed point: saving, re-loading and
saving again is byte-identical, i.e. load-then-save only normalizes
line terminators (one `'\n'` per row). -/
theorem open_save_round_trip :
    (∀ content : List Char, ∀ r ∈ editor_open_rows content,
      '\n' ∉ r ∧ r.getLast? ≠ some '\r' ∧ r.getLast? ≠ some '\n') ∧
    (∀ rows : List (List Char),
      (∀ r ∈ rows, '\n' ∉ r ∧ r.getLast? ≠ some '\r') →
      editor_open_rows (editor_rows_to_string rows) = rows) ∧
    (∀ content : List Char,
      editor_rows_to_string
          (editor_open_rows (editor_rows_to_string (editor_open_rows content))) =
        editor_rows_to_string (editor_open_rows content)) := by
  have hA : ∀ content : List Char, ∀ r ∈ editor_open_rows content,
      '\n' ∉ r ∧ r.getLast? ≠ some '\r' ∧ r.getLast? ≠ some '\n' := by
    intro content r hr
    obtain ⟨ch, hch, hstrip⟩ := List.mem_map.mp hr
    subst hstrip
    refine ⟨?_, (stripNlCr_getLast ch).1, (stripNlCr_getLast ch).2⟩
    rcases getlineSplit_chunk_shape content ch hch with hni | ⟨pre, hpre, hnpre⟩
    · intro hmem
      exact hni (stripNlCr_mem ch '\n' hmem)
    · subst hpre
      rw [stripNlCr_strip_newline]
      intro hmem
      exact hnpre (stripNlCr_mem pre '\n' hmem)
  have hB : ∀ rows : List (List Char),
      (∀ r ∈ rows, '\n' ∉ r ∧ r.getLast? ≠ some '\r') →
      editor_open_rows (editor_rows_to_string rows) = rows := by
    intro rows
    induction rows with
    | nil => intro _; rfl
    | cons r rs ih =>
      intro h
      have hr := h r (List.mem_cons_self r rs)
      have hrs : ∀ x ∈ rs, '\n' ∉ x ∧ x.getLast? ≠ some '\r' :=
        fun x hx => h x (List.mem_cons_of_mem r hx)
      rw [rows_to_string_cons]
      unfold editor_open_rows
      rw [getlineSplit_append_newline _ r hr.1]
      rw [List.map_cons]
      rw [stripNlCr_append_newline r hr.1 hr.2]
      have := ih hrs
      unfold editor_open_rows at this
      rw [this]
  refine ⟨hA, hB, ?_⟩
  intro content
  rw [hB (editor_open_rows content)
    (fun r hr => ⟨(hA content r hr).1, (hA content r hr).2.1⟩)]

/-- Witness for C2 at the concrete rows `["hi", ""]`: saving writes
`"hi\n\n"` and re-loading restores exactly `["hi", ""]`. -/
theorem open_save_round_trip_witness :
    editor_rows_to_string [['h', 'i'], []] = ['h', 'i', '\n', '\n'] ∧
    editor_open_rows (editor_rows_to_string [['h', 'i'], []]) = [['h', 'i'], []] :=
  ⟨by decide, open_save_round_trip.2.1 [['h', 'i'], []] (by decide)⟩

/-! ## C7: `editor_save` error handling -/

/-- The outcome `editor_save` reports through the transient status
message: `"Save aborted"`, `"%d bytes written to disk"`, or
`"Can't save! I/O error"`. -/
inductive SaveMsg where
  | aborted
  | written (n : Nat)
  | ioError
  deriving Repr, DecidableEq

/-- The write phase of `editor_save` after a filename is available:
`open` / `ftruncate` / `write` in sequence; only a complete write
(`write(fd, buf, len) == len`) clears `dirty` and reports the byte count;
any failure — including a partial write — reports an I/O error and leaves
the state untouched. `openOk`, `truncOk` and `writeRes` stand for the
results of the three OS calls. -/
def editorSaveWrite (st : EditorConfig) (openOk truncOk : Bool)
    (writeRes : Nat) : EditorConfig × SaveMsg :=
  if openOk then
    if truncOk then
      if writeRes = (editor_rows_to_string (st.rows.map EditorRow.chars)).length
      then ({ st with dirty := 0 },
        SaveMsg.written (editor_rows_to_string (st.rows.map EditorRow.chars)).length)
      else (st, SaveMsg.ioError)
    else (st, SaveMsg.ioError)
  else (st, SaveMsg.ioError)

/-- Function `editor_save()`: with no filename set, the prompt result is consulted
first (a cancelled prompt aborts the save with a status message and no
other state change); then the buffer is serialized and written. -/
def editor_save (st : EditorConfig) (promptRes : Option (List Char))
    (openOk truncOk : Bool) (writeRes : Nat) : EditorConfig × SaveMsg :=
  match st.filename, promptRes with
  | none, none => (st, SaveMsg.aborted)
  | none, some f => editorSaveWrite { st with filename := some f } openOk truncOk writeRes
  | some _, _ => editorSaveWrite st openOk truncOk writeRes

/-- C7. Whenever `editor_save` does not report a successful write —
prompt cancelled, open/truncate failure, or a partial write — the rows,
cursor and viewport are unchanged and `dirty` keeps its old value (so a
dirty buffer stays dirty); and `dirty` is reset to 0 exactly when a full
successful write is reported. -/
theorem editor_save_error_handling (st : EditorConfig)
    (promptRes : Option (List Char)) (openOk truncOk : Bool) (writeRes : Nat) :
    (((editor_save st promptRes openOk truncOk writeRes).2 = SaveMsg.aborted ∨
      (editor_save st promptRes openOk truncOk writeRes).2 = SaveMsg.ioError) →
      (editor_save st promptRes openOk truncOk writeRes).1.rows = st.rows ∧
      (editor_save st promptRes openOk truncOk writeRes).1.cx = st.cx ∧
      (editor_save st promptRes openOk truncOk writeRes).1.cy = st.cy ∧
      (editor_save st promptRes openOk truncOk writeRes).1.rowoff = st.rowoff ∧
      (editor_save st promptRes openOk truncOk writeRes).1.coloff = st.coloff ∧
      (editor_save st promptRes openOk truncOk writeRes).1.dirty = st.dirty) ∧
    (∀ n, (editor_save st promptRes openOk truncOk writeRes).2 = SaveMsg.written n →
      (editor_save st promptRes openOk truncOk writeRes).1.dirty = 0) ∧
    ((editor_save st promptRes openOk truncOk writeRes).2 = SaveMsg.aborted ∨
      (editor_save st promptRes openOk truncOk writeRes).2 = SaveMsg.ioError ∨
      ∃ n, (editor_save st promptRes openOk truncOk writeRes).2 = SaveMsg.written n) := by
  rcases hf : st.filename with _ | f <;> rcases hp : promptRes with _ | p <;>
    simp only [editor_save, hf, hp, editorSaveWrite] <;>
    first
      | (split_ifs <;> simp)
      | simp

/-- A dirty two-row state with a filename, used as the C7 witness input. -/
def stDirty : EditorConfig := { stAB with dirty := 1, filename := some ['f'] }

/-- Witness for C7: a failing `open` on a dirty buffer changes nothing
and the buffer stays dirty. -/
theorem editor_save_error_handling_witness :
    (editor_save stDirty none false false 0).1.rows = stDirty.rows ∧
    (editor_save stDirty none false false 0).1.cx = stDirty.cx ∧
    (editor_save stDirty none false false 0).1.cy = stDirty.cy ∧
    (editor_save stDirty none false false 0).1.rowoff = stDirty.rowoff ∧
    (editor_save stDirty none false false 0).1.coloff = stDirty.coloff ∧
    (editor_save stDirty none false false 0).1.dirty = stDirty.dirty :=
  (editor_save_error_handling stDirty none false false 0).1 (by decide)

/-! ## C8: the incremental-search callback (`editor_find_callback`) -/

/-- Function `strstr(hay, needle)` as a match offset: the first index at which
`needle` occurs as a substring of `hay`, if any. -/
def strstrIdx (hay needle : List Char) : Option Nat :=
  match hay with
  | [] => if needle.isPrefixOf ([] : List Char) then some 0 else none
  | h :: t =>
    if needle.isPrefixOf (h :: t) then some 0
    else (strstrIdx t needle).map (· + 1)

/-- The `static` search state of `editor_find_callback`:
`last_match` (row of the last match, `-1` for none) and `direction`
(`1` forward, `-1` backward). -/
structure FindState where
  last_match : Int
  direction : Int
  deriving Repr, DecidableEq

/-- The circular wrap of the loop's row index: `-1` wraps to the last
row, `numrows` wraps to row 0. -/
def wrapIndex (numrows : Nat) (c : Int) : Int :=
  if c = -1 then (numrows : Int) - 1
  else if c = (numrows : Int) then 0 else c

/-- The `for (i = 0; i < E.numrows; i++)` search loop: step `current` by
`dir`, wrap, and stop at the first row whose render cache contains the
query, returning that row index and the match's render offset. -/
def findLoop (rows : List EditorRow) (query : List Char) (dir : Int) :
    Nat → Int → Option (Nat × Nat)
  | 0, _ => none
  | fuel + 1, current =>
    match strstrIdx (rows.getD (wrapIndex rows.length (current + dir)).toNat emptyRow).render query with
    | some off => some ((wrapIndex rows.length (current + dir)).toNat, off)
    | none => findLoop rows query dir fuel (wrapIndex rows.length (current + dir))

/-- The key dispatch at the top of `editor_find_callback` (after the
Enter/Escape early return): Right/Down set `direction = 1`, Left/Up set
`direction = -1`, any other key resets `last_match = -1, direction = 1`. -/
def keyDir (key : Nat) (fs : FindState) : FindState :=
  if key = ARROW_RIGHT ∨ key = ARROW_DOWN then { fs with direction := 1 }
  else if key = ARROW_LEFT ∨ key = ARROW_UP then { fs with direction := -1 }
  else ⟨-1, 1⟩

/-- The `if (last_match == -1) direction = 1` fixup. -/
def effDir (fs : FindState) : Int :=
  if fs.last_match = -1 then 1 else fs.direction

/-- Function `editor_find_callback(query, key)`: Enter (13) or Escape (27) resets
the static state and returns; otherwise the direction is set from the
key, the circular search runs from `last_match`, and a hit updates
`last_match`, moves the cursor to the match (`cy`, with `cx` mapped back
from the render offset) and sets `rowoff = numrows`. -/
def editor_find_callback (query : List Char) (key : Nat) (fs : FindState)
    (st : EditorConfig) : FindState × EditorConfig :=
  if key = 13 ∨ key = 27 then (⟨-1, 1⟩, st)
  else
    match findLoop st.rows query (effDir (keyDir key fs)) st.rows.length (keyDir key fs).last_match with
    | some (i, off) =>
      (⟨(i : Int), effDir (keyDir key fs)⟩,
        { st with cy := i, cx := editor_row_rx_to_cx (st.rows.getD i emptyRow).chars off, rowoff := st.rows.length })
    | none => ({ keyDir key fs with direction := effDir (keyDir key fs) }, st)

/-- C8. The search callback walks rows circularly: (i) on Right/Down with
the last match on the final row, the first row probed is row 0, so a
match there is found (forward wrap); (ii) on Left/Up with the last match
on row 0, the first row probed is the final row, so a match there is
found (backward wrap); (iii) any key that is neither navigation nor
Enter/Escape behaves exactly as if the search anchor had been reset to
`last_match = -1, direction = 1`; (iv) Enter/Escape reset the static
state and leave the editor state unchanged. -/
theorem find_callback_wraps (query : List Char) (key : Nat) (fs : FindState)
    (st : EditorConfig) :
    ((key = ARROW_RIGHT ∨ key = ARROW_DOWN) → st.rows ≠ [] →
      fs.last_match = (st.rows.length : Int) - 1 →
      (strstrIdx (st.rows.getD 0 emptyRow).render query).isSome →
      ((editor_find_callback query key fs st).2.cy = 0 ∧
        (editor_find_callback query key fs st).1.last_match = 0)) ∧
    ((key = ARROW_LEFT ∨ key = ARROW_UP) → st.rows ≠ [] →
      fs.last_match = 0 →
      (strstrIdx (st.rows.getD (st.rows.length - 1) emptyRow).render query).isSome →
      ((editor_find_callback query key fs st).2.cy = st.rows.length - 1 ∧
        (editor_find_callback query key fs st).1.last_match =
          ((st.rows.length - 1 : Nat) : Int))) ∧
    ((key ≠ 13 ∧ key ≠ 27 ∧ key ≠ ARROW_LEFT ∧ key ≠ ARROW_RIGHT ∧
        key ≠ ARROW_UP ∧ key ≠ ARROW_DOWN) →
      editor_find_callback query key fs st =
        editor_find_callback query key ⟨-1, 1⟩ st) ∧
    ((key = 13 ∨ key = 27) →
      editor_find_callback query key fs st = (⟨-1, 1⟩, st)) := by
  refine ⟨?_, ?_, ?_, ?_⟩
  · intro hk hne hlm hsome
    obtain ⟨r, rest, hrows⟩ : ∃ r rest, st.rows = r :: rest := by
      cases hr : st.rows with
      | nil => exact absurd hr hne
      | cons a l => exact ⟨a, l, rfl⟩
    have hne2 : ¬(key = 13 ∨ key = 27) := by
      rcases hk with h | h <;> subst h <;> decide
    have hkd : keyDir key fs = { fs with direction := 1 } := by
      unfold keyDir
      rw [if_pos hk]
    have hed : effDir { fs with direction := (1 : Int) } = 1 := by
      unfold effDir
      split <;> rfl
    unfold editor_find_callback
    rw [if_neg hne2, hkd, hed]
    have hlmr : fs.last_match = ((r :: rest).length : Int) - 1 := by
      rw [← hrows]; exact hlm
    have hw : wrapIndex (r :: rest).length
        (({ fs with direction := (1 : Int) } : FindState).last_match + 1) = 0 := by
      show wrapIndex (r :: rest).length (fs.last_match + 1) = 0
      rw [hlmr]
      unfold wrapIndex
      rw [if_neg (by simp only [List.length_cons]; omega),
        if_pos (by simp only [List.length_cons]; omega)]
    rw [hrows]
    rw [show ((r :: rest).length : Nat) = rest.length + 1 from rfl]
    rw [findLoop]
    rw [show (rest.length + 1 : Nat) = (r :: rest).length from rfl]
    rw [hw]
    have hget0 : (r :: rest).getD (Int.toNat 0) emptyRow = r := rfl
    rw [hget0]
    obtain ⟨off, hoff⟩ := Option.isSome_iff_exists.mp (by rw [hrows] at hsome; simpa using hsome)
    rw [hoff]
    exact ⟨rfl, rfl⟩
  · intro hk hne hlm hsome
    obtain ⟨r, rest, hrows⟩ : ∃ r rest, st.rows = r :: rest := by
      cases hr : st.rows with
      | nil => exact absurd hr hne
      | cons a l => exact ⟨a, l, rfl⟩
    have hne2 : ¬(key = 13 ∨ key = 27) := by
      rcases hk with h | h <;> subst h <;> decide
    have hne3 : ¬(key = ARROW_RIGHT ∨ key = ARROW_DOWN) := by
      rcases hk with h | h <;> subst h <;> decide
    have hkd : keyDir key fs = { fs with direction := -1 } := by
      unfold keyDir
      rw [if_neg hne3, if_pos hk]
    have hed : effDir { fs with direction := (-1 : Int) } = -1 := by
      unfold effDir
      show (if fs.last_match = -1 then (1 : Int) else -1) = -1
      rw [if_neg (by rw [hlm]; decide)]
    unfold editor_find_callback
    rw [if_neg hne2, hkd, hed]
    have hw : wrapIndex (r :: rest).length
        (({ fs with direction := (-1 : Int) } : FindState).last_match + -1) = (rest.length : Int) := by
      show wrapIndex (r :: rest).length (fs.last_match + -1) = (rest.length : Int)
      rw [hlm]
      unfold wrapIndex
      rw [if_pos (by omega)]
      simp only [List.length_cons]
      omega
    rw [hrows]
    rw [show ((r :: rest).length : Nat) = rest.length + 1 from rfl]
    rw [findLoop]
    rw [show (rest.length + 1 : Nat) = (r :: rest).length from rfl]
    rw [hw]
    have htoNat : (rest.length : Int).toNat = rest.length := Int.toNat_natCast rest.length
    rw [htoNat]
    have hsome' : (strstrIdx ((r :: rest).getD rest.length emptyRow).render query).isSome := by
      rw [hrows] at hsome
      simpa using hsome
    obtain ⟨off, hoff⟩ := Option.isSome_iff_exists.mp hsome'
    rw [hoff]
    refine ⟨?_, ?_⟩
    · show rest.length = (r :: rest).length - 1
      simp
    · show ((rest.length : Nat) : Int) = (((r :: rest).length - 1 : Nat) : Int)
      simp
  · intro h
    obtain ⟨h13, h27, hl, hr, hu, hd⟩ := h
    have h1 : ¬(key = 13 ∨ key = 27) := by tauto
    have h2 : ¬(key = ARROW_RIGHT ∨ key = ARROW_DOWN) := by tauto
    have h3 : ¬(key = ARROW_LEFT ∨ key = ARROW_UP) := by tauto
    unfold editor_find_callback keyDir
    simp only [if_neg h1, if_neg h2, if_neg h3]
  · intro h
    unfold editor_find_callback
    rw [if_pos h]

/-- A three-row state whose first and last rows contain `"ab"`. -/
def stFind : EditorConfig :=
  { cx := 0, cy := 1, rx := 0, rowoff := 0, coloff := 0,
    screenrows := 10, screencols := 40,
    rows := [mkRow ['a', 'b'], mkRow ['c'], mkRow ['x', 'a', 'b']],
    dirty := 0, filename := none }

/-- Witness for C8: on `stFind`, pressing Right with the last match on
the final row wraps the search to row 0. -/
theorem find_callback_wraps_witness :
    (editor_find_callback ['a', 'b'] ARROW_RIGHT ⟨2, 1⟩ stFind).2.cy = 0 ∧
    (editor_find_callback ['a', 'b'] ARROW_RIGHT ⟨2, 1⟩ stFind).1.last_match = 0 :=
  (find_callback_wraps ['a', 'b'] ARROW_RIGHT ⟨2, 1⟩ stFind).1
    (Or.inl rfl) (by decide) (by decide) (by decide)

end Ed9
